import Mathlib

deriving instance DecidableEq for Except

/-!
Verification of the pageviews ETL pipeline core.

Shallow embedding of the repository's Transformer (`include/scripts/transform_pageviews.py`),
Loader and Analyzer (`include/scripts/db.py`), together with proofs of the specified
properties.  Pure data flow is modelled directly; file and database I/O is modelled by
explicit state passing (input file = list of lines, database = optional table contents,
analysis log = list of lines).
-/

namespace ETL

/-! ## String helpers (models of the Python primitives used by the Transformer) -/

/-- Model of `event_time.replace("-", "")`: remove every hyphen. -/
def removeHyphens (s : String) : String :=
  ⟨s.data.filter (fun c => c ≠ '-')⟩

/-- Characters Python's `str.split()` (and `str.strip()`) treat as separators.
We model the ASCII whitespace that can occur in a text line. -/
def isPyWhitespace (c : Char) : Bool :=
  c = ' ' || c = '\t' || c = '\n' || c = '\r' || c = '\x0b' || c = '\x0c'

/-- Accumulating worker for `pySplit`: splits a character list on whitespace runs,
discarding empty chunks, exactly as Python `str.split()` with no argument does. -/
def splitWsAux : List Char → List Char → List (List Char)
  | [], acc => if acc.isEmpty then [] else [acc.reverse]
  | c :: rest, acc =>
    if isPyWhitespace c then
      if acc.isEmpty then splitWsAux rest [] else acc.reverse :: splitWsAux rest []
    else
      splitWsAux rest (c :: acc)

/-- Model of `line.strip().split()`: split on runs of whitespace, no empty fields.
(The leading `strip()` is absorbed: splitting on whitespace runs already ignores
leading and trailing whitespace.) -/
def pySplit (s : String) : List String :=
  (splitWsAux s.data []).map (fun w => ⟨w⟩)

/-- Digit value of an ASCII digit character. -/
def digitVal (c : Char) : Nat := c.toNat - 48

/-- Worker for `pyIntCore`: consumes the remaining characters of an integer literal
after at least one digit has been read.  A single underscore is allowed between
two digits (CPython grouping rule); anything else fails. -/
def pyIntAux : List Char → Nat → Option Nat
  | [], acc => some acc
  | '_' :: c :: rest, acc =>
    if c.isDigit then pyIntAux rest (acc * 10 + digitVal c) else none
  | '_' :: [], _ => none
  | c :: rest, acc =>
    if c.isDigit then pyIntAux rest (acc * 10 + digitVal c) else none

/-- Unsigned part of Python `int(str)`: a nonempty ASCII digit sequence with optional
single underscores between digits.  (CPython additionally accepts non-ASCII decimal
digits and surrounding whitespace; the operands here come from a whitespace split of
an ASCII-line model, where neither occurs.) -/
def pyIntCore : List Char → Option Nat
  | [] => none
  | c :: rest => if c.isDigit then pyIntAux rest (digitVal c) else none

/-- Model of Python `int(s)` on a whitespace-free string: optional sign, then digits. -/
def pyInt (s : String) : Option Int :=
  match s.data with
  | '-' :: rest => (pyIntCore rest).map (fun n => -(n : Int))
  | '+' :: rest => (pyIntCore rest).map (fun n => (n : Int))
  | cs => (pyIntCore cs).map (fun n => (n : Int))

/-! ## Timestamp parsing: model of `datetime.strptime(s, "%Y%m%d%H")`

CPython's `_strptime` compiles the format to the value-constrained regex
`(?P<Y>\d\d\d\d)(?P<m>1[0-2]|0[1-9]|[1-9])(?P<d>3[0-1]|[1-2]\d|0[1-9]|[1-9]| [1-9])(?P<H>2[0-3]|[0-1]\d|\d)`,
matches it at the start of the string (`format_regex.match`, alternatives tried
left to right with backtracking, no end anchor, first successful assignment kept),
raises `ValueError` when it does not match or when the match leaves unconsumed
characters ("unconverted data remains"), converts the captured fields with
`int(...)`, and finally constructs `datetime(year, month, day, hour)`, which
raises when the year is below `MINYEAR = 1` or the day is out of range for the
month (the regexes already confine month to 1..12, day to 1..31, hour to 0..23).
The alternative lists below reproduce each field's regex, in preference order;
`matchTail` reproduces the engine's backtracking over them. -/

/-- Numeric value of a list of ASCII digit characters. -/
def digitsVal (cs : List Char) : Nat :=
  cs.foldl (fun acc c => acc * 10 + digitVal c) 0

/-- Whether `y` is a leap year (Gregorian rule, as `datetime` uses). -/
def isLeap (y : Nat) : Bool :=
  y % 4 = 0 && (y % 100 ≠ 0 || y % 400 = 0)

/-- Days in month `m` of year `y` (1-based month), as `datetime` validates. -/
def daysInMonth (y m : Nat) : Nat :=
  if m = 2 then (if isLeap y then 29 else 28)
  else if m = 4 || m = 6 || m = 9 || m = 11 then 30
  else 31

/-- The prefixes matched by the `%m` regex `1[0-2]|0[1-9]|[1-9]`, in the order the
engine tries them: each entry is the field's integer value and the unconsumed rest. -/
def monthAlts : List Char → List (Nat × List Char)
  | c1 :: c2 :: rest =>
    (if c1 = '1' ∧ '0' ≤ c2 ∧ c2 ≤ '2' then [(10 + digitVal c2, rest)] else [])
      ++ (if c1 = '0' ∧ '1' ≤ c2 ∧ c2 ≤ '9' then [(digitVal c2, rest)] else [])
      ++ (if '1' ≤ c1 ∧ c1 ≤ '9' then [(digitVal c1, c2 :: rest)] else [])
  | [c1] => if '1' ≤ c1 ∧ c1 ≤ '9' then [(digitVal c1, [])] else []
  | [] => []

/-- The prefixes matched by the `%d` regex `3[0-1]|[1-2]\d|0[1-9]|[1-9]| [1-9]`,
in engine order (the last alternative is a space followed by a digit; `int(" 5")`
is 5). -/
def dayAlts : List Char → List (Nat × List Char)
  | c1 :: c2 :: rest =>
    (if c1 = '3' ∧ '0' ≤ c2 ∧ c2 ≤ '1' then [(30 + digitVal c2, rest)] else [])
      ++ (if ('1' ≤ c1 ∧ c1 ≤ '2') ∧ c2.isDigit then [(digitVal c1 * 10 + digitVal c2, rest)] else [])
      ++ (if c1 = '0' ∧ '1' ≤ c2 ∧ c2 ≤ '9' then [(digitVal c2, rest)] else [])
      ++ (if '1' ≤ c1 ∧ c1 ≤ '9' then [(digitVal c1, c2 :: rest)] else [])
      ++ (if c1 = ' ' ∧ '1' ≤ c2 ∧ c2 ≤ '9' then [(digitVal c2, rest)] else [])
  | [c1] => if '1' ≤ c1 ∧ c1 ≤ '9' then [(digitVal c1, [])] else []
  | [] => []

/-- The prefixes matched by the `%H` regex `2[0-3]|[0-1]\d|\d`, in engine order. -/
def hourAlts : List Char → List (Nat × List Char)
  | c1 :: c2 :: rest =>
    (if c1 = '2' ∧ '0' ≤ c2 ∧ c2 ≤ '3' then [(20 + digitVal c2, rest)] else [])
      ++ (if ('0' ≤ c1 ∧ c1 ≤ '1') ∧ c2.isDigit then [(digitVal c1 * 10 + digitVal c2, rest)] else [])
      ++ (if c1.isDigit then [(digitVal c1, c2 :: rest)] else [])
  | [c1] => if c1.isDigit then [(digitVal c1, [])] else []
  | [] => []

/-- The first successful assignment of the `%m%d%H` tail in the engine's
backtracking order (month alternative outermost, each tried left to right; no end
anchor, so the first complete assignment wins even if characters remain): returns
`(month, day, hour, unconsumed suffix)`. -/
def matchTail (cs : List Char) : Option (Nat × Nat × Nat × List Char) :=
  (monthAlts cs).findSome? (fun ma =>
    (dayAlts ma.2).findSome? (fun da =>
      (hourAlts da.2).findSome? (fun ha =>
        some (ma.1, da.1, ha.1, ha.2))))

/-- Model of `datetime.strptime(s, "%Y%m%d%H")`, returning `(year, month, day, hour)`
on success and `none` where CPython raises `ValueError`: no regex match, unconverted
data remaining after the match, year 0, or a day out of range for the month. -/
def strptimeYmdH (s : String) : Option (Nat × Nat × Nat × Nat) :=
  match s.data with
  | c1 :: c2 :: c3 :: c4 :: rest =>
    if c1.isDigit ∧ c2.isDigit ∧ c3.isDigit ∧ c4.isDigit then
      match matchTail rest with
      | none => none
      | some (m, d, h, leftover) =>
        if leftover ≠ [] then none
        else
          let y := digitsVal [c1, c2, c3, c4]
          if 1 ≤ y ∧ d ≤ daysInMonth y m then some (y, m, d, h) else none
    else none
  | _ => none

/-! ## The Transformer -/

/-- The fixed watchlist `COMPANIES` from `transform_pageviews.py` (a Python `set`
with exact, case-sensitive string membership). -/
def COMPANIES : List String :=
  ["Amazon", "Apple_Inc.", "Facebook", "Google", "Microsoft"]

/-- One output record of the Transformer (a data row of the output CSV). -/
structure Row where
  page_title_id : Nat
  page_title : String
  pageviews : Int
  year : Nat
  month : Nat
  day : Nat
  hour : Nat
deriving DecidableEq, Repr

/-- How a Transformer invocation can fail: a malformed execution timestamp
(`ValueError` from `strptime`) or a non-integer view-count field on a
watchlist-matching line (`ValueError` from `int(...)`). -/
inductive TransformError where
  | badTimestamp
  | badInt (field : String)
deriving DecidableEq, Repr

/-- The per-line loop of `transform_pageviews`: `ctr` is the surrogate-key counter
`page_title_id`.  A line with fewer than 4 whitespace-separated fields is skipped;
otherwise fields 1 and 2 are taken; a title outside `COMPANIES` is skipped; a
matching line emits `(ctr, title, int(views), y, m, d, h)` and increments `ctr`. -/
def transformLines (y m d h : Nat) (ctr : Nat) : List String → Except TransformError (List Row)
  | [] => .ok []
  | line :: rest =>
    if (pySplit line).length < 4 then
      transformLines y m d h ctr rest
    else if COMPANIES.contains ((pySplit line).getD 1 "") then
      match pyInt ((pySplit line).getD 2 "") with
      | none => .error (.badInt ((pySplit line).getD 2 ""))
      | some n =>
        (transformLines y m d h (ctr + 1) rest).map
          (fun rs => ⟨ctr, (pySplit line).getD 1 "", n, y, m, d, h⟩ :: rs)
    else
      transformLines y m d h ctr rest

/-- Model of `transform_pageviews(input_file, output_file, event_time)`: the input
file is its list of lines, the result is the list of data rows written after the
header, or the error raised.  The timestamp is normalized and parsed before any
line is read, and the surrogate-key counter starts at 1 on every invocation. -/
def transform_pageviews (lines : List String) (event_time : String) :
    Except TransformError (List Row) :=
  match strptimeYmdH (removeHyphens event_time) with
  | none => .error .badTimestamp
  | some (y, m, d, h) => transformLines y m d h 1 lines

/-- A line is well-formed (at least 4 whitespace-separated fields) with its title
field (index 1) in the watchlist: exactly the lines that produce an output record
(when their view count parses). -/
def matchesWatchlist (line : String) : Bool :=
  4 ≤ (pySplit line).length && COMPANIES.contains ((pySplit line).getD 1 "")

/-- A line on which the Transformer raises: well-formed, title in the watchlist,
but view-count field (index 2) not parseable by `int(...)`. -/
def raisesValueError (line : String) : Bool :=
  4 ≤ (pySplit line).length && COMPANIES.contains ((pySplit line).getD 1 "")
    && (pyInt ((pySplit line).getD 2 "")).isNone

/-- The `YYYYMMDD-HH` shape the spec names for execution timestamps, with the
hyphen optional: eight digits, an optional hyphen, two digits. -/
def matchesSpecTimestampPattern (s : String) : Bool :=
  (s.data.length = 11 && (s.data.take 8).all Char.isDigit && s.data.getD 8 ' ' = '-'
      && (s.data.drop 9).all Char.isDigit)
    || (s.data.length = 10 && s.data.all Char.isDigit)

/-! ## The Loader (`db.py`)

The database is modelled as `Option (List StoredRow)`: `none` when the table
`wikipedia_pageviews` does not exist, `some t` when it holds rows `t`.  A Loader
invocation executes a statement list (one `CREATE TABLE IF NOT EXISTS` followed by
one parameterized `INSERT ... ON CONFLICT (page_title_id) DO NOTHING` per CSV data
row) inside the `postgres_cursor` context manager, which commits on success, rolls
back and re-raises on failure, and closes the cursor and connection in a `finally`
block on every path. -/

/-- A row persisted in `wikipedia_pageviews` (all columns `INTEGER` except the
`TEXT` title). -/
structure StoredRow where
  page_title_id : Int
  page_title : String
  pageviews : Int
  year : Int
  month : Int
  day : Int
  hour : Int
deriving DecidableEq, Repr

/-- A data row of the transformed CSV as `csv.DictReader` yields it: every field a
string (the Loader passes them as parameters and PostgreSQL coerces to `INTEGER`). -/
structure CsvRow where
  page_title_id : String
  page_title : String
  pageviews : String
  year : String
  month : String
  day : String
  hour : String
deriving DecidableEq, Repr

/-- PostgreSQL's text-to-`INTEGER` coercion (`int4in`): optional surrounding
whitespace, optional sign, nonempty digit run, value within the 32-bit range.
`none` where PostgreSQL raises (invalid syntax or out of range). -/
def pgParseInt (s : String) : Option Int :=
  let t := s.trim.data
  let core : Option Nat :=
    match t with
    | '-' :: rest | '+' :: rest =>
      if rest ≠ [] && rest.all Char.isDigit then some (digitsVal rest) else none
    | cs => if cs ≠ [] && cs.all Char.isDigit then some (digitsVal cs) else none
  let signed : Option Int :=
    match t with
    | '-' :: _ => core.map (fun n => -(n : Int))
    | _ => core.map (fun n => (n : Int))
  match signed with
  | some v => if -(2 ^ 31 : Int) ≤ v ∧ v < 2 ^ 31 then some v else none
  | none => none

/-- The statements one `load_to_postgres` invocation issues through the cursor. -/
inductive Stmt where
  | createTable
  | insertRow (r : CsvRow)
deriving DecidableEq, Repr

/-- Whether the table `t` already holds a row with primary key `id`
(the arbiter check of `ON CONFLICT (page_title_id)`). -/
def hasKey (t : List StoredRow) (id : Int) : Bool :=
  t.any (fun r => r.page_title_id = id)

/-- Coercion of the seven insert parameters to a storable row: the six `INTEGER`
columns must each parse (`none` models the `psycopg2` error the failed coercion
raises), the `TEXT` title is taken as is. -/
def parseCsvRow (r : CsvRow) : Option StoredRow :=
  match pgParseInt r.page_title_id, pgParseInt r.pageviews, pgParseInt r.year,
      pgParseInt r.month, pgParseInt r.day, pgParseInt r.hour with
  | some id, some pv, some y, some mo, some dy, some hr =>
    some ⟨id, r.page_title, pv, y, mo, dy, hr⟩
  | _, _, _, _, _, _ => none

/-- Effect of one SQL statement on the (uncommitted) table state.
`CREATE TABLE IF NOT EXISTS` creates an empty table only when absent; an insert
coerces its seven parameters, then either skips (`ON CONFLICT (page_title_id) DO
NOTHING` with the primary key already present) or appends the row.
`.error` models a raised database error. -/
def execStmt (s : Option (List StoredRow)) : Stmt → Except String (Option (List StoredRow))
  | .createTable =>
    match s with
    | none => .ok (some [])
    | some t => .ok (some t)
  | .insertRow r =>
    match s with
    | none => .error "relation wikipedia_pageviews does not exist"
    | some t =>
      match parseCsvRow r with
      | none => .error "invalid input syntax for type integer"
      | some row =>
        if hasKey t row.page_title_id then .ok (some t)
        else .ok (some (t ++ [row]))

/-- Run statements in order, stopping at the first error (as `cursor.execute`
raises immediately). -/
def execAll (s : Option (List StoredRow)) : List Stmt → Except String (Option (List StoredRow))
  | [] => .ok s
  | st :: rest =>
    match execStmt s st with
    | .ok s' => execAll s' rest
    | .error e => .error e

/-- Observable events of one `postgres_cursor` session, in order. -/
inductive DbEvent where
  | openConn
  | execOk (st : Stmt)
  | commit
  | rollback
  | closeConn
deriving DecidableEq, Repr

/-- The successfully executed statements of a run, as trace events; execution
stops at the first failing statement. -/
def execTrace (s : Option (List StoredRow)) : List Stmt → List DbEvent
  | [] => []
  | st :: rest =>
    match execStmt s st with
    | .ok s' => DbEvent.execOk st :: execTrace s' rest
    | .error _ => []

/-- Outcome of one `postgres_cursor` session: its event trace, the value returned
to (or exception re-raised at) the caller, and the committed store afterwards. -/
structure SessionOutcome where
  events : List DbEvent
  result : Except String Unit
  finalStore : Option (List StoredRow)
deriving DecidableEq, Repr

/-- Model of the `postgres_cursor` context manager running a statement list `stmts`
against committed state `db`: open a connection and cursor, run the body, commit on
success / roll back and re-raise on exception, and close cursor and connection in
the `finally` block either way. -/
def postgres_cursor (db : Option (List StoredRow)) (stmts : List Stmt) : SessionOutcome :=
  match execAll db stmts with
  | .ok working =>
    ⟨DbEvent.openConn :: execTrace db stmts ++ [DbEvent.commit, DbEvent.closeConn],
      .ok (), working⟩
  | .error e =>
    ⟨DbEvent.openConn :: execTrace db stmts ++ [DbEvent.rollback, DbEvent.closeConn],
      .error e, db⟩

/-- The statement list `load_to_postgres` issues for a CSV file with data rows
`file`: the `CREATE TABLE IF NOT EXISTS`, then one insert per row in file order. -/
def loadStmts (file : List CsvRow) : List Stmt :=
  Stmt.createTable :: file.map Stmt.insertRow

/-- Model of `load_to_postgres(csv_file, conn_id)`: run the table creation and all
row inserts through one `postgres_cursor` session. -/
def load_to_postgres (db : Option (List StoredRow)) (file : List CsvRow) : SessionOutcome :=
  postgres_cursor db (loadStmts file)

/-! ## The Analyzer (`get_most_viewed_page` in `db.py`)

The analysis query groups all stored rows by `(page_title, year, month, day, hour)`,
sums `pageviews` per group, orders descending and keeps one row.  The persistent
analysis log is modelled as its list of lines; opening it in append mode and writing
one line is modelled as appending one element. -/

/-- A `GROUP BY` key of the analysis query. -/
abbrev GroupKey := String × Int × Int × Int × Int

/-- The group key of a stored row. -/
def rowKey (r : StoredRow) : GroupKey :=
  (r.page_title, r.year, r.month, r.day, r.hour)

/-- `SUM(pageviews)` over the rows of group `k`. -/
def groupTotal (rows : List StoredRow) (k : GroupKey) : Int :=
  ((rows.filter (fun r => rowKey r = k)).map StoredRow.pageviews).sum

/-- The distinct group keys of the stored rows (first-occurrence order; the order
is irrelevant to the properties proved, matching the store-defined tie-break). -/
def groupKeys : List StoredRow → List GroupKey
  | [] => []
  | r :: rest => rowKey r :: (groupKeys rest).filter (fun k => k ≠ rowKey r)

/-- `ORDER BY total_pageviews DESC LIMIT 1` over the grouped totals: pick an entry
with maximal total (keeping the earlier of two tied entries; real PostgreSQL's
tie-break is unspecified, and no proved property depends on it). -/
def selectMax : List (GroupKey × Int) → Option (GroupKey × Int)
  | [] => none
  | x :: rest =>
    match selectMax rest with
    | none => some x
    | some y => if x.2 < y.2 then some y else some x

/-- The grouped, summed result set of the analysis query. -/
def queryGroups (rows : List StoredRow) : List (GroupKey × Int) :=
  (groupKeys rows).map (fun k => (k, groupTotal rows k))

/-- The dictionary `get_most_viewed_page` returns on a non-empty store. -/
structure AnalysisResult where
  page_title : String
  year : Int
  month : Int
  day : Int
  hour : Int
  total_pageviews : Int
deriving DecidableEq, Repr

/-- Python `f"{n:02d}"`: decimal rendering zero-padded to width 2. -/
def pad2 (n : Int) : String :=
  let s := toString n
  if s.length < 2 then "0" ++ s else s

/-- The report line `get_most_viewed_page` builds (the f-string in `db.py`). -/
def reportMessage (res : AnalysisResult) : String :=
  "Most viewed Wikipedia page: '" ++ res.page_title ++ "' | " ++
    "Total views: " ++ toString res.total_pageviews ++ " | " ++
    "Time window: " ++ toString res.year ++ "-" ++ pad2 res.month ++ "-" ++ pad2 res.day ++
    " at " ++ pad2 res.hour ++ ":00"

/-- Model of `get_most_viewed_page(conn_id)`: `db` is the committed store,
`analysisLog` the lines of the persistent analysis log file.  Returns the result
dictionary (`none` models the empty dict `{}`) and the log contents afterwards;
`.error` models a raised database error (querying a store whose table was never
created).  On an empty result the log is untouched; otherwise exactly one report
line is appended. -/
def get_most_viewed_page (db : Option (List StoredRow)) (analysisLog : List String) :
    Except String (Option AnalysisResult × List String) :=
  match db with
  | none => .error "relation wikipedia_pageviews does not exist"
  | some rows =>
    match selectMax (queryGroups rows) with
    | none => .ok (none, analysisLog)
    | some (k, tot) =>
      let res : AnalysisResult := ⟨k.1, k.2.1, k.2.2.1, k.2.2.2.1, k.2.2.2.2, tot⟩
      .ok (some res, analysisLog ++ [reportMessage res])

end ETL


namespace ETL

/-! ## Transformer lemmas -/

lemma exceptMap_eq_ok {ε α β : Type} {f : α → β} {e : Except ε α} {b : β} :
    e.map f = .ok b ↔ ∃ a, e = .ok a ∧ f a = b := by
  cases e <;> simp [Except.map]

lemma exceptMap_eq_error {ε α β : Type} {f : α → β} {e : Except ε α} {err : ε} :
    e.map f = .error err ↔ e = .error err := by
  cases e <;> simp [Except.map]

lemma transformLines_nil (y m d h c : Nat) : transformLines y m d h c [] = .ok [] := rfl

lemma transformLines_cons (y m d h c : Nat) (line : String) (rest : List String) :
    transformLines y m d h c (line :: rest) =
      if (pySplit line).length < 4 then
        transformLines y m d h c rest
      else if COMPANIES.contains ((pySplit line).getD 1 "") then
        match pyInt ((pySplit line).getD 2 "") with
        | none => .error (.badInt ((pySplit line).getD 2 ""))
        | some n =>
          (transformLines y m d h (c + 1) rest).map
            (fun rs => ⟨c, (pySplit line).getD 1 "", n, y, m, d, h⟩ :: rs)
      else
        transformLines y m d h c rest := rfl

lemma transformLines_cons_short {line : String} (h4 : (pySplit line).length < 4)
    (y m d h c : Nat) (rest : List String) :
    transformLines y m d h c (line :: rest) = transformLines y m d h c rest := by
  rw [transformLines_cons, if_pos h4]

lemma transformLines_cons_nomatch {line : String} (h4 : ¬ (pySplit line).length < 4)
    (hm : ¬ COMPANIES.contains ((pySplit line).getD 1 "") = true)
    (y m d h c : Nat) (rest : List String) :
    transformLines y m d h c (line :: rest) = transformLines y m d h c rest := by
  rw [transformLines_cons, if_neg h4, if_neg hm]

lemma transformLines_cons_badInt {line : String} (h4 : ¬ (pySplit line).length < 4)
    (hm : COMPANIES.contains ((pySplit line).getD 1 "") = true)
    (hv : pyInt ((pySplit line).getD 2 "") = none)
    (y m d h c : Nat) (rest : List String) :
    transformLines y m d h c (line :: rest)
      = .error (.badInt ((pySplit line).getD 2 "")) := by
  rw [transformLines_cons, if_neg h4, if_pos hm, hv]

lemma transformLines_cons_emit {line : String} {n : Int}
    (h4 : ¬ (pySplit line).length < 4)
    (hm : COMPANIES.contains ((pySplit line).getD 1 "") = true)
    (hv : pyInt ((pySplit line).getD 2 "") = some n)
    (y m d h c : Nat) (rest : List String) :
    transformLines y m d h c (line :: rest)
      = (transformLines y m d h (c + 1) rest).map
          (fun rs => ⟨c, (pySplit line).getD 1 "", n, y, m, d, h⟩ :: rs) := by
  rw [transformLines_cons, if_neg h4, if_pos hm, hv]

lemma matchesWatchlist_false_of_short {line : String} (h4 : (pySplit line).length < 4) :
    matchesWatchlist line = false := by
  simp only [matchesWatchlist, Bool.and_eq_false_iff, decide_eq_false_iff_not]
  exact Or.inl (by omega)

lemma matchesWatchlist_false_of_nomatch {line : String}
    (hm : ¬ COMPANIES.contains ((pySplit line).getD 1 "") = true) :
    matchesWatchlist line = false := by
  simp only [matchesWatchlist, Bool.and_eq_false_iff]
  exact Or.inr (by simpa using hm)

lemma matchesWatchlist_true {line : String} (h4 : ¬ (pySplit line).length < 4)
    (hm : COMPANIES.contains ((pySplit line).getD 1 "") = true) :
    matchesWatchlist line = true := by
  simp only [matchesWatchlist, Bool.and_eq_true, decide_eq_true_eq]
  exact ⟨by omega, hm⟩

/-- Surrogate keys: a successful run of the per-line loop starting at counter `c`
emits exactly the watchlist-matching well-formed lines, with ids `c, c+1, ...`. -/
lemma transformLines_ok_ids (y m d h : Nat) :
    ∀ (lines : List String) (c : Nat) (rows : List Row),
      transformLines y m d h c lines = .ok rows →
      rows.map Row.page_title_id = List.range' c (lines.filter matchesWatchlist).length := by
  intro lines
  induction lines with
  | nil =>
    intro c rows hok
    rw [transformLines_nil] at hok
    cases hok
    simp
  | cons line rest ih =>
    intro c rows hok
    by_cases h4 : (pySplit line).length < 4
    · rw [transformLines_cons_short h4] at hok
      rw [List.filter_cons_of_neg (by simp [matchesWatchlist_false_of_short h4])]
      exact ih c rows hok
    · by_cases hm : COMPANIES.contains ((pySplit line).getD 1 "") = true
      · cases hv : pyInt ((pySplit line).getD 2 "") with
        | none =>
          rw [transformLines_cons_badInt h4 hm hv] at hok
          cases hok
        | some n =>
          rw [transformLines_cons_emit h4 hm hv] at hok
          rcases exceptMap_eq_ok.mp hok with ⟨rs, hrs, hrows⟩
          subst hrows
          rw [List.filter_cons_of_pos (by simp [matchesWatchlist_true h4 hm])]
          simpa [List.range'_succ] using ih (c + 1) rs hrs
      · rw [transformLines_cons_nomatch h4 hm] at hok
        rw [List.filter_cons_of_neg (by simp [matchesWatchlist_false_of_nomatch hm])]
        exact ih c rows hok

/-- Every row a successful run emits has a watchlist title and carries the run's
(year, month, day, hour). -/
lemma transformLines_ok_fields (y m d h : Nat) :
    ∀ (lines : List String) (c : Nat) (rows : List Row),
      transformLines y m d h c lines = .ok rows →
      ∀ r ∈ rows, COMPANIES.contains r.page_title = true
        ∧ r.year = y ∧ r.month = m ∧ r.day = d ∧ r.hour = h := by
  intro lines
  induction lines with
  | nil =>
    intro c rows hok
    rw [transformLines_nil] at hok
    cases hok
    intro r hr
    cases hr
  | cons line rest ih =>
    intro c rows hok
    by_cases h4 : (pySplit line).length < 4
    · rw [transformLines_cons_short h4] at hok
      exact ih c rows hok
    · by_cases hm : COMPANIES.contains ((pySplit line).getD 1 "") = true
      · cases hv : pyInt ((pySplit line).getD 2 "") with
        | none =>
          rw [transformLines_cons_badInt h4 hm hv] at hok
          cases hok
        | some n =>
          rw [transformLines_cons_emit h4 hm hv] at hok
          rcases exceptMap_eq_ok.mp hok with ⟨rs, hrs, hrows⟩
          subst hrows
          intro r hr
          rcases List.mem_cons.mp hr with hhead | htail
          · subst hhead
            exact ⟨hm, rfl, rfl, rfl, rfl⟩
          · exact ih (c + 1) rs hrs r htail
      · rw [transformLines_cons_nomatch h4 hm] at hok
        exact ih c rows hok

/-- The per-line loop never raises the timestamp error: that error is decided
before any line is read. -/
lemma transformLines_ne_badTimestamp (y m d h : Nat) :
    ∀ (lines : List String) (c : Nat),
      transformLines y m d h c lines ≠ .error .badTimestamp := by
  intro lines
  induction lines with
  | nil =>
    intro c
    rw [transformLines_nil]
    intro hcontra
    cases hcontra
  | cons line rest ih =>
    intro c
    by_cases h4 : (pySplit line).length < 4
    · rw [transformLines_cons_short h4]
      exact ih c
    · by_cases hm : COMPANIES.contains ((pySplit line).getD 1 "") = true
      · cases hv : pyInt ((pySplit line).getD 2 "") with
        | none =>
          rw [transformLines_cons_badInt h4 hm hv]
          intro hcontra
          cases hcontra
        | some n =>
          rw [transformLines_cons_emit h4 hm hv]
          intro hcontra
          exact ih (c + 1) (exceptMap_eq_error.mp hcontra)
      · rw [transformLines_cons_nomatch h4 hm]
        exact ih c

/-- The per-line loop raises (necessarily a view-count `ValueError`) exactly when
some line is well-formed, watchlist-matching, and has a non-integer view count. -/
lemma transformLines_error_iff (y m d h : Nat) :
    ∀ (lines : List String) (c : Nat),
      (∃ s, transformLines y m d h c lines = .error (.badInt s))
        ↔ ∃ l ∈ lines, raisesValueError l = true := by
  intro lines
  induction lines with
  | nil =>
    intro c
    rw [transformLines_nil]
    simp
  | cons line rest ih =>
    intro c
    by_cases h4 : (pySplit line).length < 4
    · rw [transformLines_cons_short h4]
      rw [ih c]
      constructor
      · rintro ⟨l, hl, hbad⟩
        exact ⟨l, List.mem_cons_of_mem _ hl, hbad⟩
      · rintro ⟨l, hl, hbad⟩
        rcases List.mem_cons.mp hl with hhead | htail
        · subst hhead
          exfalso
          simp only [raisesValueError, Bool.and_eq_true, decide_eq_true_eq] at hbad
          omega
        · exact ⟨l, htail, hbad⟩
    · by_cases hm : COMPANIES.contains ((pySplit line).getD 1 "") = true
      · cases hv : pyInt ((pySplit line).getD 2 "") with
        | none =>
          rw [transformLines_cons_badInt h4 hm hv]
          constructor
          · intro _
            refine ⟨line, List.mem_cons_self _ _, ?_⟩
            simp only [raisesValueError, Bool.and_eq_true, decide_eq_true_eq, Option.isNone_iff_eq_none]
            exact ⟨⟨by omega, hm⟩, hv⟩
          · intro _
            exact ⟨(pySplit line).getD 2 "", rfl⟩
        | some n =>
          rw [transformLines_cons_emit h4 hm hv]
          constructor
          · rintro ⟨s, hs⟩
            rcases (ih (c + 1)).mp ⟨s, exceptMap_eq_error.mp hs⟩ with ⟨l, hl, hbad⟩
            exact ⟨l, List.mem_cons_of_mem _ hl, hbad⟩
          · rintro ⟨l, hl, hbad⟩
            rcases List.mem_cons.mp hl with hhead | htail
            · subst hhead
              exfalso
              simp only [raisesValueError, Bool.and_eq_true, decide_eq_true_eq,
                Option.isNone_iff_eq_none] at hbad
              rw [hbad.2] at hv
              cases hv
            · rcases (ih (c + 1)).mpr ⟨l, htail, hbad⟩ with ⟨s, hs⟩
              exact ⟨s, by rw [exceptMap_eq_error]; exact hs⟩
      · rw [transformLines_cons_nomatch h4 hm]
        rw [ih c]
        constructor
        · rintro ⟨l, hl, hbad⟩
          exact ⟨l, List.mem_cons_of_mem _ hl, hbad⟩
        · rintro ⟨l, hl, hbad⟩
          rcases List.mem_cons.mp hl with hhead | htail
          · subst hhead
            exfalso
            simp only [raisesValueError, Bool.and_eq_true, decide_eq_true_eq] at hbad
            exact hm hbad.1.2
          · exact ⟨l, htail, hbad⟩

end ETL

namespace ETL

/-! ## Claim theorems: the Transformer -/

lemma transform_pageviews_eq_of_parse {event_time : String} {y m d h : Nat}
    (hts : strptimeYmdH (removeHyphens event_time) = some (y, m, d, h)) (lines : List String) :
    transform_pageviews lines event_time = transformLines y m d h 1 lines := by
  unfold transform_pageviews
  rw [hts]

/-- Claim C1: in every successful Transformer run, the `page_title_id` values of the
output records are exactly the contiguous sequence `1..N` in input line order (no
duplicates, no gaps, restarting at 1 each invocation), where `N` is the number of
well-formed (≥ 4 fields) lines whose title is in the watchlist. -/
theorem claim_C1_surrogate_keys (lines : List String) (event_time : String) (rows : List Row)
    (hok : transform_pageviews lines event_time = .ok rows) :
    rows.map Row.page_title_id = List.range' 1 ((lines.filter matchesWatchlist).length)
      ∧ rows.length = (lines.filter matchesWatchlist).length := by
  cases hts : strptimeYmdH (removeHyphens event_time) with
  | none =>
    unfold transform_pageviews at hok
    rw [hts] at hok
    cases hok
  | some t =>
    obtain ⟨y, m, d, h⟩ := t
    rw [transform_pageviews_eq_of_parse hts] at hok
    have hids := transformLines_ok_ids y m d h lines 1 rows hok
    refine ⟨hids, ?_⟩
    simpa using congrArg List.length hids

theorem claim_C1_witness :
    transform_pageviews ["en X", "23 Apple_Inc. 451 999", "en Google 7 0", "en Other 5 1"]
        "20251210-16"
      = .ok [⟨1, "Apple_Inc.", 451, 2025, 12, 10, 16⟩, ⟨2, "Google", 7, 2025, 12, 10, 16⟩]
    ∧ (([⟨1, "Apple_Inc.", 451, 2025, 12, 10, 16⟩, ⟨2, "Google", 7, 2025, 12, 10, 16⟩] :
          List Row).map Row.page_title_id
        = List.range' 1 (((["en X", "23 Apple_Inc. 451 999", "en Google 7 0", "en Other 5 1"] :
            List String).filter matchesWatchlist).length)
      ∧ ([⟨1, "Apple_Inc.", 451, 2025, 12, 10, 16⟩, ⟨2, "Google", 7, 2025, 12, 10, 16⟩] :
          List Row).length
        = ((["en X", "23 Apple_Inc. 451 999", "en Google 7 0", "en Other 5 1"] :
            List String).filter matchesWatchlist).length) :=
  ⟨by decide,
    claim_C1_surrogate_keys
      ["en X", "23 Apple_Inc. 451 999", "en Google 7 0", "en Other 5 1"] "20251210-16"
      [⟨1, "Apple_Inc.", 451, 2025, 12, 10, 16⟩, ⟨2, "Google", 7, 2025, 12, 10, 16⟩]
      (by decide)⟩

/-- Claim C2: every record a successful Transformer run emits has its `page_title` in
the fixed five-entry watchlist (membership by exact, case-sensitive string equality);
no other title produces a record. -/
theorem claim_C2_watchlist_only (lines : List String) (event_time : String) (rows : List Row)
    (hok : transform_pageviews lines event_time = .ok rows) :
    ∀ r ∈ rows, r.page_title ∈ COMPANIES := by
  cases hts : strptimeYmdH (removeHyphens event_time) with
  | none =>
    unfold transform_pageviews at hok
    rw [hts] at hok
    cases hok
  | some t =>
    obtain ⟨y, m, d, h⟩ := t
    rw [transform_pageviews_eq_of_parse hts] at hok
    intro r hr
    have hmem := (transformLines_ok_fields y m d h lines 1 rows hok r hr).1
    simpa using hmem

theorem claim_C2_witness :
    transform_pageviews ["23 Apple_Inc. 451 999"] "20251210-16"
        = .ok [⟨1, "Apple_Inc.", 451, 2025, 12, 10, 16⟩]
      ∧ (⟨1, "Apple_Inc.", 451, 2025, 12, 10, 16⟩ : Row).page_title ∈ COMPANIES :=
  ⟨by decide,
    claim_C2_watchlist_only ["23 Apple_Inc. 451 999"] "20251210-16"
      [⟨1, "Apple_Inc.", 451, 2025, 12, 10, 16⟩] (by decide)
      ⟨1, "Apple_Inc.", 451, 2025, 12, 10, 16⟩ (by decide)⟩

/-- Claim C3: with a valid execution timestamp, a line with fewer than 4 fields is
skipped silently (removing it changes nothing: no error, counter unchanged); the
Transformer raises exactly when some line has ≥ 4 fields, a watchlist title, and a
view-count field `int(...)` cannot parse — and that error is the view-count
`ValueError`, never the timestamp error. -/
theorem claim_C3_error_policy (y m d h : Nat) (event_time : String)
    (hts : strptimeYmdH (removeHyphens event_time) = some (y, m, d, h)) :
    (∀ line rest, (pySplit line).length < 4 →
        transform_pageviews (line :: rest) event_time = transform_pageviews rest event_time)
      ∧ (∀ lines, transform_pageviews lines event_time ≠ .error .badTimestamp)
      ∧ (∀ lines, (∃ s, transform_pageviews lines event_time = .error (.badInt s))
            ↔ ∃ l ∈ lines, raisesValueError l = true) := by
  refine ⟨?_, ?_, ?_⟩
  · intro line rest h4
    rw [transform_pageviews_eq_of_parse hts, transform_pageviews_eq_of_parse hts,
      transformLines_cons_short h4]
  · intro lines
    rw [transform_pageviews_eq_of_parse hts]
    exact transformLines_ne_badTimestamp y m d h lines 1
  · intro lines
    rw [transform_pageviews_eq_of_parse hts]
    exact transformLines_error_iff y m d h lines 1

theorem claim_C3_witness :
    strptimeYmdH (removeHyphens "20251210-16") = some (2025, 12, 10, 16)
      ∧ transform_pageviews ["en X", "23 Apple_Inc. 451 999"] "20251210-16"
          = transform_pageviews ["23 Apple_Inc. 451 999"] "20251210-16" :=
  ⟨by decide,
    (claim_C3_error_policy 2025 12 10 16 "20251210-16" (by decide)).1
      "en X" ["23 Apple_Inc. 451 999"] (by decide)⟩

/-- Claim C9: every record of a successful run carries the identical
(year, month, day, hour), and that tuple is the one parsed from the single
execution-timestamp argument (so it does not depend on any input line). -/
theorem claim_C9_time_fields (lines : List String) (event_time : String) (rows : List Row)
    (hok : transform_pageviews lines event_time = .ok rows) :
    ∃ y m d h, strptimeYmdH (removeHyphens event_time) = some (y, m, d, h)
      ∧ ∀ r ∈ rows, r.year = y ∧ r.month = m ∧ r.day = d ∧ r.hour = h := by
  cases hts : strptimeYmdH (removeHyphens event_time) with
  | none =>
    unfold transform_pageviews at hok
    rw [hts] at hok
    cases hok
  | some t =>
    obtain ⟨y, m, d, h⟩ := t
    rw [transform_pageviews_eq_of_parse hts] at hok
    exact ⟨y, m, d, h, rfl,
      fun r hr => (transformLines_ok_fields y m d h lines 1 rows hok r hr).2⟩

theorem claim_C9_witness :
    transform_pageviews ["23 Apple_Inc. 451 999", "en Google 7 0"] "20251210-16"
        = .ok [⟨1, "Apple_Inc.", 451, 2025, 12, 10, 16⟩, ⟨2, "Google", 7, 2025, 12, 10, 16⟩]
      ∧ ∃ y m d h, strptimeYmdH (removeHyphens "20251210-16") = some (y, m, d, h)
          ∧ ∀ r ∈ ([⟨1, "Apple_Inc.", 451, 2025, 12, 10, 16⟩,
              ⟨2, "Google", 7, 2025, 12, 10, 16⟩] : List Row),
              r.year = y ∧ r.month = m ∧ r.day = d ∧ r.hour = h :=
  ⟨by decide,
    claim_C9_time_fields ["23 Apple_Inc. 451 999", "en Google 7 0"] "20251210-16"
      [⟨1, "Apple_Inc.", 451, 2025, 12, 10, 16⟩, ⟨2, "Google", 7, 2025, 12, 10, 16⟩]
      (by decide)⟩

/-- Claim C10: the single line `"23 Apple_Inc. 451 999"` with timestamp
`"20251210-16"` produces exactly the record `(1, "Apple_Inc.", 451, 2025, 12, 10, 16)`. -/
theorem claim_C10_single_line_example :
    transform_pageviews ["23 Apple_Inc. 451 999"] "20251210-16"
      = .ok [{ page_title_id := 1, page_title := "Apple_Inc.", pageviews := 451,
               year := 2025, month := 12, day := 10, hour := 16 }] := by
  decide

/-- Claim C8 is false as stated: the timestamp `"20251210-1"` does not match the
`YYYYMMDD-HH` pattern (hour has one digit, normalized form has 9 digits, not 10),
yet the Transformer does not fail with a format error — it parses the timestamp as
(2025, 12, 10, 1) and emits an output record. -/
theorem claim_C8_counterexample :
    matchesSpecTimestampPattern "20251210-1" = false
      ∧ transform_pageviews ["23 Apple_Inc. 451 999"] "20251210-1"
          = .ok [{ page_title_id := 1, page_title := "Apple_Inc.", pageviews := 451,
                   year := 2025, month := 12, day := 10, hour := 1 }] := by
  decide

/-- Claim C8, amended: the Transformer fails with a format error exactly when
CPython's `strptime("%Y%m%d%H")` rejects the hyphen-stripped timestamp — four year
digits followed by the value-constrained month/day/hour regexes matched in
backtracking order with the first successful assignment kept, failing when no
assignment matches, when the match leaves unconsumed characters, when the year is
0, or when the day is out of range for the month; when that parse succeeds, the
run proceeds and stamps the parsed (year, month, day, hour) on every emitted
record. -/
theorem claim_C8_amended_format_error_iff (lines : List String) (event_time : String) :
    (transform_pageviews lines event_time = .error .badTimestamp
        ↔ strptimeYmdH (removeHyphens event_time) = none)
      ∧ (∀ y m d h, strptimeYmdH (removeHyphens event_time) = some (y, m, d, h) →
          ∀ rows, transform_pageviews lines event_time = .ok rows →
            ∀ r ∈ rows, r.year = y ∧ r.month = m ∧ r.day = d ∧ r.hour = h) := by
  constructor
  · constructor
    · intro herr
      cases hts : strptimeYmdH (removeHyphens event_time) with
      | none => rfl
      | some t =>
        obtain ⟨y, m, d, h⟩ := t
        rw [transform_pageviews_eq_of_parse hts] at herr
        exact absurd herr (transformLines_ne_badTimestamp y m d h lines 1)
    · intro hnone
      unfold transform_pageviews
      rw [hnone]
  · intro y m d h hts rows hok r hr
    rw [transform_pageviews_eq_of_parse hts] at hok
    exact (transformLines_ok_fields y m d h lines 1 rows hok r hr).2

end ETL

namespace ETL

/-! ## Loader lemmas -/

lemma execAll_cons (s : Option (List StoredRow)) (st : Stmt) (rest : List Stmt) :
    execAll s (st :: rest)
      = match execStmt s st with
        | .ok s' => execAll s' rest
        | .error e => .error e := rfl

lemma execTrace_cons (s : Option (List StoredRow)) (st : Stmt) (rest : List Stmt) :
    execTrace s (st :: rest)
      = match execStmt s st with
        | .ok s' => DbEvent.execOk st :: execTrace s' rest
        | .error _ => [] := rfl

/-- When a run succeeds, every statement executed: the trace lists them all. -/
lemma execTrace_of_ok :
    ∀ (stmts : List Stmt) (s s' : Option (List StoredRow)),
      execAll s stmts = .ok s' → execTrace s stmts = stmts.map DbEvent.execOk := by
  intro stmts
  induction stmts with
  | nil => intro s s' _; rfl
  | cons st rest ih =>
    intro s s' hok
    rw [execAll_cons] at hok
    rw [execTrace_cons]
    cases hex : execStmt s st with
    | ok s'' =>
      rw [hex] at hok
      have hok' : execAll s'' rest = .ok s' := hok
      show DbEvent.execOk st :: execTrace s'' rest = (st :: rest).map DbEvent.execOk
      rw [List.map_cons, ih s'' s' hok']
    | error e =>
      rw [hex] at hok
      simp at hok

/-- Every trace event is the successful execution of a statement (commit, rollback,
open and close are appended by the context manager, not the body). -/
lemma execTrace_mem :
    ∀ (stmts : List Stmt) (s : Option (List StoredRow)) (ev : DbEvent),
      ev ∈ execTrace s stmts → ∃ st, ev = DbEvent.execOk st := by
  intro stmts
  induction stmts with
  | nil => intro s ev hev; cases hev
  | cons st rest ih =>
    intro s ev hev
    rw [execTrace_cons] at hev
    cases hex : execStmt s st with
    | ok s'' =>
      rw [hex] at hev
      rcases List.mem_cons.mp hev with rfl | htail
      · exact ⟨st, rfl⟩
      · exact ih s'' ev htail
    | error e =>
      rw [hex] at hev
      cases hev

/-- A session whose body succeeds commits and returns the new state. -/
lemma postgres_cursor_ok {db s' : Option (List StoredRow)} {stmts : List Stmt}
    (h : execAll db stmts = .ok s') :
    postgres_cursor db stmts
      = ⟨DbEvent.openConn :: stmts.map DbEvent.execOk ++ [DbEvent.commit, DbEvent.closeConn],
          .ok (), s'⟩ := by
  unfold postgres_cursor
  rw [h, execTrace_of_ok stmts db s' h]

/-- A session whose body raises rolls back, re-raises, and leaves the store as it was. -/
lemma postgres_cursor_error {db : Option (List StoredRow)} {stmts : List Stmt} {e : String}
    (h : execAll db stmts = .error e) :
    postgres_cursor db stmts
      = ⟨DbEvent.openConn :: execTrace db stmts ++ [DbEvent.rollback, DbEvent.closeConn],
          .error e, db⟩ := by
  unfold postgres_cursor
  rw [h]

lemma hasKey_append (t : List StoredRow) (row : StoredRow) (id : Int) :
    hasKey (t ++ [row]) id = (hasKey t id || decide (row.page_title_id = id)) := by
  simp [hasKey]

/-- Executing statements from an existing table keeps the table existing. -/
lemma execAll_some_ok :
    ∀ (stmts : List Stmt) (t : List StoredRow) (s' : Option (List StoredRow)),
      execAll (some t) stmts = .ok s' → ∃ t', s' = some t' := by
  intro stmts
  induction stmts with
  | nil =>
    intro t s' hok
    injection hok with h'
    exact ⟨t, h'.symm⟩
  | cons st rest ih =>
    intro t s' hok
    rw [execAll_cons] at hok
    cases st with
    | createTable =>
      exact ih t s' hok
    | insertRow r =>
      cases hp : parseCsvRow r with
      | none =>
        have hex : execStmt (some t) (Stmt.insertRow r)
            = .error "invalid input syntax for type integer" := by
          simp [execStmt, hp]
        rw [hex] at hok
        exact absurd hok (by simp)
      | some row =>
        by_cases hk : hasKey t row.page_title_id = true
        · have hex : execStmt (some t) (Stmt.insertRow r) = .ok (some t) := by
            simp [execStmt, hp, hk]
          rw [hex] at hok
          exact ih t s' hok
        · have hex : execStmt (some t) (Stmt.insertRow r) = .ok (some (t ++ [row])) := by
            simp [execStmt, hp, hk]
          rw [hex] at hok
          exact ih (t ++ [row]) s' hok

/-- After a successful insert run, keys only accumulate, and every inserted file
row's primary key is present in the final table. -/
lemma execAll_insert_keys :
    ∀ (file : List CsvRow) (t t' : List StoredRow),
      execAll (some t) (file.map Stmt.insertRow) = .ok (some t') →
      (∀ id, hasKey t id = true → hasKey t' id = true)
        ∧ ∀ r ∈ file, ∃ row, parseCsvRow r = some row ∧ hasKey t' row.page_title_id = true := by
  intro file
  induction file with
  | nil =>
    intro t t' hok
    injection hok with h'
    injection h' with h''
    subst h''
    exact ⟨fun id h => h, by simp⟩
  | cons r rest ih =>
    intro t t' hok
    rw [List.map_cons, execAll_cons] at hok
    cases hp : parseCsvRow r with
    | none =>
      have hex : execStmt (some t) (Stmt.insertRow r)
          = .error "invalid input syntax for type integer" := by
        simp [execStmt, hp]
      rw [hex] at hok
      exact absurd hok (by simp)
    | some row =>
      by_cases hk : hasKey t row.page_title_id = true
      · have hex : execStmt (some t) (Stmt.insertRow r) = .ok (some t) := by
          simp [execStmt, hp, hk]
        rw [hex] at hok
        obtain ⟨hmono, hall⟩ := ih t t' hok
        refine ⟨hmono, ?_⟩
        intro x hx
        rcases List.mem_cons.mp hx with rfl | hx'
        · exact ⟨row, hp, hmono _ hk⟩
        · exact hall x hx'
      · have hex : execStmt (some t) (Stmt.insertRow r) = .ok (some (t ++ [row])) := by
          simp [execStmt, hp, hk]
        rw [hex] at hok
        obtain ⟨hmono, hall⟩ := ih (t ++ [row]) t' hok
        constructor
        · intro id hid
          refine hmono id ?_
          rw [hasKey_append, hid]
          simp
        · intro x hx
          rcases List.mem_cons.mp hx with rfl | hx'
          · refine ⟨row, hp, hmono _ ?_⟩
            rw [hasKey_append]
            simp
          · exact hall x hx'

/-- Inserting rows whose primary keys are all already present changes nothing
(`ON CONFLICT DO NOTHING` skips each row). -/
lemma execAll_skip_all :
    ∀ (file : List CsvRow) (t : List StoredRow),
      (∀ r ∈ file, ∃ row, parseCsvRow r = some row ∧ hasKey t row.page_title_id = true) →
      execAll (some t) (file.map Stmt.insertRow) = .ok (some t) := by
  intro file
  induction file with
  | nil => intro t _; rfl
  | cons r rest ih =>
    intro t hall
    obtain ⟨row, hp, hk⟩ := hall r (List.mem_cons_self r rest)
    have hex : execStmt (some t) (Stmt.insertRow r) = .ok (some t) := by
      simp [execStmt, hp, hk]
    rw [List.map_cons, execAll_cons, hex]
    exact ih t (fun x hx => hall x (List.mem_cons_of_mem r hx))

/-! ## Claim theorems: the Loader -/

/-- Claim C4: every Loader invocation runs all its statements in one session whose
trace always ends with closing the connection; either every statement succeeded,
exactly one commit (and no rollback) happens, placed after the execution of every
statement, and the body's final state is committed — or some statement failed,
exactly one rollback (and no commit) happens, the committed store is unchanged (no
partial load persists), and the original error is re-raised to the caller. -/
theorem claim_C4_loader_transaction (db : Option (List StoredRow)) (file : List CsvRow) :
    (load_to_postgres db file).events.getLast? = some DbEvent.closeConn
      ∧ (((load_to_postgres db file).events.count DbEvent.commit = 1
            ∧ (load_to_postgres db file).events.count DbEvent.rollback = 0
            ∧ (load_to_postgres db file).events
                = DbEvent.openConn :: (loadStmts file).map DbEvent.execOk
                    ++ [DbEvent.commit, DbEvent.closeConn]
            ∧ (load_to_postgres db file).result = .ok ()
            ∧ execAll db (loadStmts file) = .ok (load_to_postgres db file).finalStore)
          ∨ (∃ e, (load_to_postgres db file).events.count DbEvent.commit = 0
            ∧ (load_to_postgres db file).events.count DbEvent.rollback = 1
            ∧ (load_to_postgres db file).result = .error e
            ∧ execAll db (loadStmts file) = .error e
            ∧ (load_to_postgres db file).finalStore = db)) := by
  cases hrun : execAll db (loadStmts file) with
  | ok s' =>
    have hload : load_to_postgres db file
        = ⟨DbEvent.openConn :: (loadStmts file).map DbEvent.execOk
              ++ [DbEvent.commit, DbEvent.closeConn], .ok (), s'⟩ :=
      postgres_cursor_ok hrun
    rw [hload]
    refine ⟨?_, Or.inl ⟨?_, ?_, rfl, rfl, rfl⟩⟩
    · have hsplit : DbEvent.openConn :: (loadStmts file).map DbEvent.execOk
            ++ [DbEvent.commit, DbEvent.closeConn]
          = (DbEvent.openConn :: (loadStmts file).map DbEvent.execOk ++ [DbEvent.commit])
            ++ [DbEvent.closeConn] := by
        simp
      rw [hsplit, List.getLast?_concat]
    · have hzero : ((loadStmts file).map DbEvent.execOk).count DbEvent.commit = 0 := by
        rw [List.count_eq_zero]
        simp
      simp [List.count_append, List.count_cons, hzero]
    · have hzero : ((loadStmts file).map DbEvent.execOk).count DbEvent.rollback = 0 := by
        rw [List.count_eq_zero]
        simp
      simp [List.count_append, List.count_cons, hzero]
  | error e =>
    have hload : load_to_postgres db file
        = ⟨DbEvent.openConn :: execTrace db (loadStmts file)
              ++ [DbEvent.rollback, DbEvent.closeConn], .error e, db⟩ :=
      postgres_cursor_error hrun
    rw [hload]
    have hzeroC : (execTrace db (loadStmts file)).count DbEvent.commit = 0 := by
      rw [List.count_eq_zero]
      intro hmem
      obtain ⟨st, hst⟩ := execTrace_mem (loadStmts file) db DbEvent.commit hmem
      cases hst
    have hzeroR : (execTrace db (loadStmts file)).count DbEvent.rollback = 0 := by
      rw [List.count_eq_zero]
      intro hmem
      obtain ⟨st, hst⟩ := execTrace_mem (loadStmts file) db DbEvent.rollback hmem
      cases hst
    refine ⟨?_, Or.inr ⟨e, ?_, ?_, rfl, rfl, rfl⟩⟩
    · have hsplit : DbEvent.openConn :: execTrace db (loadStmts file)
            ++ [DbEvent.rollback, DbEvent.closeConn]
          = (DbEvent.openConn :: execTrace db (loadStmts file) ++ [DbEvent.rollback])
            ++ [DbEvent.closeConn] := by
        simp
      rw [hsplit, List.getLast?_concat]
    · simp [List.count_append, List.count_cons, hzeroC]
    · simp [List.count_append, List.count_cons, hzeroR]

/-- Claim C5: loading the same transformed file twice into an initially empty store
is indistinguishable from loading it once — the second invocation replays the same
session (every insert hits `ON CONFLICT (page_title_id) DO NOTHING` and is silently
skipped, not errored on and not overwritten) and leaves the same stored rows. -/
theorem claim_C5_idempotent_reload (file : List CsvRow) :
    load_to_postgres (load_to_postgres none file).finalStore file
      = load_to_postgres none file := by
  cases hrun : execAll none (loadStmts file) with
  | error e =>
    have hload : load_to_postgres none file
        = ⟨DbEvent.openConn :: execTrace none (loadStmts file)
              ++ [DbEvent.rollback, DbEvent.closeConn], .error e, none⟩ :=
      postgres_cursor_error hrun
    rw [hload]
    exact hload
  | ok s' =>
    have hrun' : execAll (some []) (file.map Stmt.insertRow) = .ok s' := hrun
    obtain ⟨t', rfl⟩ := execAll_some_ok (file.map Stmt.insertRow) [] s' hrun'
    have hall := (execAll_insert_keys file [] t' hrun').2
    have hskip := execAll_skip_all file t' hall
    have hrun2 : execAll (some t') (loadStmts file) = .ok (some t') := hskip
    have hload1 : load_to_postgres none file
        = ⟨DbEvent.openConn :: (loadStmts file).map DbEvent.execOk
              ++ [DbEvent.commit, DbEvent.closeConn], .ok (), some t'⟩ :=
      postgres_cursor_ok hrun
    have hload2 : load_to_postgres (some t') file
        = ⟨DbEvent.openConn :: (loadStmts file).map DbEvent.execOk
              ++ [DbEvent.commit, DbEvent.closeConn], .ok (), some t'⟩ :=
      postgres_cursor_ok hrun2
    rw [hload1]
    exact hload2

end ETL

namespace ETL

/-! ## Analyzer lemmas -/

lemma rowKey_mem_groupKeys :
    ∀ (rows : List StoredRow) (r : StoredRow), r ∈ rows → rowKey r ∈ groupKeys rows := by
  intro rows
  induction rows with
  | nil => intro r hr; cases hr
  | cons r0 rest ih =>
    intro r hr
    rcases List.mem_cons.mp hr with rfl | hr'
    · exact List.mem_cons_self _ _
    · by_cases hk : rowKey r = rowKey r0
      · rw [hk]
        exact List.mem_cons_self _ _
      · refine List.mem_cons_of_mem _ (List.mem_filter.mpr ⟨ih r hr', ?_⟩)
        simpa using hk

lemma groupKeys_mem :
    ∀ (rows : List StoredRow) (k : GroupKey), k ∈ groupKeys rows → ∃ r ∈ rows, rowKey r = k := by
  intro rows
  induction rows with
  | nil => intro k hk; cases hk
  | cons r0 rest ih =>
    intro k hk
    rcases List.mem_cons.mp hk with rfl | hk'
    · exact ⟨r0, List.mem_cons_self _ _, rfl⟩
    · obtain ⟨r, hr, hkey⟩ := ih k (List.mem_filter.mp hk').1
      exact ⟨r, List.mem_cons_of_mem _ hr, hkey⟩

lemma selectMax_eq_none :
    ∀ (l : List (GroupKey × Int)), selectMax l = none ↔ l = [] := by
  intro l
  cases l with
  | nil => simp [selectMax]
  | cons a rest =>
    simp only [selectMax]
    cases hrest : selectMax rest with
    | none => simp
    | some y => by_cases hlt : a.2 < y.2 <;> simp [hlt]

lemma selectMax_spec :
    ∀ (l : List (GroupKey × Int)) (x : GroupKey × Int),
      selectMax l = some x → x ∈ l ∧ ∀ y ∈ l, y.2 ≤ x.2 := by
  intro l
  induction l with
  | nil => intro x hx; cases hx
  | cons a rest ih =>
    intro x hx
    simp only [selectMax] at hx
    cases hrest : selectMax rest with
    | none =>
      rw [hrest] at hx
      injection hx with hx'
      subst hx'
      have hrest' : rest = [] := (selectMax_eq_none rest).mp hrest
      subst hrest'
      exact ⟨List.mem_cons_self _ _, by simp⟩
    | some y =>
      rw [hrest] at hx
      have hx2 : (if a.2 < y.2 then some y else some a) = some x := hx
      obtain ⟨hymem, hybound⟩ := ih y hrest
      by_cases hlt : a.2 < y.2
      · rw [if_pos hlt] at hx2
        injection hx2 with hx'
        subst hx'
        refine ⟨List.mem_cons_of_mem _ hymem, ?_⟩
        intro z hz
        rcases List.mem_cons.mp hz with rfl | hz'
        · exact le_of_lt hlt
        · exact hybound z hz'
      · rw [if_neg hlt] at hx2
        injection hx2 with hx'
        subst hx'
        refine ⟨List.mem_cons_self _ _, ?_⟩
        intro z hz
        rcases List.mem_cons.mp hz with rfl | hz'
        · exact le_refl _
        · exact le_trans (hybound z hz') (not_lt.mp hlt)

lemma get_most_viewed_page_some (rows : List StoredRow) (lg : List String) :
    get_most_viewed_page (some rows) lg
      = match selectMax (queryGroups rows) with
        | none => .ok (none, lg)
        | some (k, tot) =>
          .ok (some ⟨k.1, k.2.1, k.2.2.1, k.2.2.2.1, k.2.2.2.2, tot⟩,
            lg ++ [reportMessage ⟨k.1, k.2.1, k.2.2.1, k.2.2.2.1, k.2.2.2.2, tot⟩]) := rfl

/-! ## Claim theorems: the Analyzer -/

/-- Claim C6: on a non-empty store the Analyzer returns a group (an actual
`(page_title, year, month, day, hour)` key of the stored rows) whose summed
pageviews is maximal over all groups, together with that total, and appends
exactly one report line — built by the documented format string — to the
analysis log, leaving every previously logged line in place. -/
theorem claim_C6_analyzer_max (rows : List StoredRow) (lg : List String) (hne : rows ≠ []) :
    ∃ res, get_most_viewed_page (some rows) lg = .ok (some res, lg ++ [reportMessage res])
      ∧ (∃ r ∈ rows, rowKey r = (res.page_title, res.year, res.month, res.day, res.hour))
      ∧ res.total_pageviews
          = groupTotal rows (res.page_title, res.year, res.month, res.day, res.hour)
      ∧ ∀ r ∈ rows, groupTotal rows (rowKey r) ≤ res.total_pageviews := by
  cases hsel : selectMax (queryGroups rows) with
  | none =>
    exfalso
    have hq : queryGroups rows = [] := (selectMax_eq_none _).mp hsel
    cases hrows : rows with
    | nil => exact hne hrows
    | cons r0 rest =>
      rw [hrows] at hq
      simp [queryGroups, groupKeys] at hq
  | some kt =>
    obtain ⟨k, tot⟩ := kt
    obtain ⟨hmem, hbound⟩ := selectMax_spec _ _ hsel
    obtain ⟨k', hk'mem, hk'eq⟩ := List.mem_map.mp hmem
    have hkk : k' = k := congrArg Prod.fst hk'eq
    subst hkk
    have htot : tot = groupTotal rows k' := (congrArg Prod.snd hk'eq).symm
    refine ⟨⟨k'.1, k'.2.1, k'.2.2.1, k'.2.2.2.1, k'.2.2.2.2, tot⟩, ?_, ?_, ?_, ?_⟩
    · rw [get_most_viewed_page_some, hsel]
    · exact groupKeys_mem rows k' hk'mem
    · exact htot
    · intro r hr
      have hin : (rowKey r, groupTotal rows (rowKey r)) ∈ queryGroups rows :=
        List.mem_map.mpr ⟨rowKey r, rowKey_mem_groupKeys rows r hr, rfl⟩
      exact hbound _ hin

theorem claim_C6_witness :
    ([⟨1, "Apple_Inc.", 451, 2025, 12, 10, 16⟩] : List StoredRow) ≠ []
      ∧ ∃ res, get_most_viewed_page (some [⟨1, "Apple_Inc.", 451, 2025, 12, 10, 16⟩]) []
            = .ok (some res, [] ++ [reportMessage res])
          ∧ (∃ r ∈ ([⟨1, "Apple_Inc.", 451, 2025, 12, 10, 16⟩] : List StoredRow),
              rowKey r = (res.page_title, res.year, res.month, res.day, res.hour))
          ∧ res.total_pageviews
              = groupTotal [⟨1, "Apple_Inc.", 451, 2025, 12, 10, 16⟩]
                  (res.page_title, res.year, res.month, res.day, res.hour)
          ∧ ∀ r ∈ ([⟨1, "Apple_Inc.", 451, 2025, 12, 10, 16⟩] : List StoredRow),
              groupTotal [⟨1, "Apple_Inc.", 451, 2025, 12, 10, 16⟩] (rowKey r)
                ≤ res.total_pageviews :=
  ⟨by decide,
    claim_C6_analyzer_max [⟨1, "Apple_Inc.", 451, 2025, 12, 10, 16⟩] [] (by decide)⟩

/-- Claim C7: on a store whose table exists but holds no rows, the Analyzer returns
the empty result (no error is raised) and appends nothing to the analysis log. -/
theorem claim_C7_empty_store (lg : List String) :
    get_most_viewed_page (some []) lg = .ok (none, lg) := rfl

end ETL
